import Mathlib

/-!
Verification development for the deferred-evaluation proxy machinery of
`django/utils/functional.py` (the `lazy` / `Promise` / `__proxy__`
construction, plus `allow_lazy`).

The embedding models the dynamic parts of the Python runtime explicitly:

* a Python `dict` is an association list in which an update overwrites the
  first matching key in place and a fresh key is appended at the end
  (insertion order), and lookup returns the first matching pair;
* a class is identified by its name; a `ClassUniverse` records, for every
  class name, its method resolution order (`mro()`, the class itself first,
  most derived to least derived) and the items of its `__dict__`
  (operation name paired with an opaque implementation identifier);
* a runtime value (`PyValue`) carries its runtime class name and an integer
  payload; payloads give the structural semantics of `==`, `<` and `hash`
  used by the comparison methods defined directly on the proxy class;
* computation invocations are counted by threading an explicit counter
  through every operation that may call the wrapped function, so that
  "calls the function exactly once" is a statement about the counter.
-/

namespace DjangoFunctional

/-- Opaque identifier of a concrete Python method object (an entry `v` of
some class `__dict__`). Dispatch chooses identifiers; their bodies are not
interpreted. -/
abbrev Impl := String

section AssocList

variable {κ : Type} {α : Type} [DecidableEq κ]

/-- Python `d[k]` / `k in d`: first pair whose key matches. -/
def lookupAssoc : List (κ × α) → κ → Option α
  | [], _ => none
  | (k', v') :: rest, k => if k' = k then some v' else lookupAssoc rest k

/-- Python `d[k] = v`: overwrite the first matching key in place, append a
fresh key at the end (dict insertion-order semantics). -/
def updateAssoc : List (κ × α) → κ → α → List (κ × α)
  | [], k, v => [(k, v)]
  | (k', v') :: rest, k, v =>
      if k' = k then (k, v) :: rest else (k', v') :: updateAssoc rest k v

/-- The value stored for `k` after inserting the pairs of `m` in order into
a dict (the last pair with key `k` wins). -/
def lookupLast (m : List (κ × α)) (k : κ) : Option α :=
  lookupAssoc m.reverse k

/-- The key list of a dict. -/
def keysOf (m : List (κ × α)) : List κ :=
  m.map Prod.fst

/-- Left-biased choice on `Option`, used to state lookup lemmas. -/
def orO : Option α → Option α → Option α
  | some v, _ => some v
  | none, b => b

end AssocList

/-- The class environment: `mro c` is the method resolution order of the
class named `c` (the class itself first, as Python's `c.mro()` returns it),
and `dict c` lists the `(name, method)` items of `c.__dict__`. -/
structure ClassUniverse where
  mro : String → List String
  dict : String → List (String × Impl)

/-- A runtime value: its runtime class name (`type(res)`) and an integer
payload standing in for its identity under `==` / `<` / `hash`. -/
structure PyValue where
  cls : String
  val : Int
deriving DecidableEq, Repr

/-- The wrapped computation `func` closed over by `lazy`: from the captured
positional and keyword arguments to the result value. -/
abbrev Func := List PyValue → List (String × PyValue) → PyValue

/-- Name of the byte-sequence result class (`bytes`). -/
def bytesName : String := "bytes"

/-- Name of the text result class (`six.text_type`, `unicode` on the
Python 2 runtime this repository targets). -/
def textTypeName : String := "unicode"

/-- Message of the assertion in `__prepare_class__` (functional.py line 181). -/
def assertMsg : String := "Cannot call lazy() with both bytes and text return types."

/-- Message of the `TypeError` in `__promise__.__wrapper__` (functional.py line 219). -/
def typeErrMsg : String := "Lazy object returned unexpected type."

/-- The dispatch table `__proxy__.__dispatch`: a dict from result class to a
dict from operation name to method object. -/
abbrev Dispatch := List (String × List (String × Impl))

/-- The per-result-class inner table of `__dispatch`, as built by the loop
`for type_ in reversed(resultclass.mro()): for (k, v) in type_.__dict__.items()`
in `__prepare_class__` (lines 142-172): starting from the fresh
`cls.__dispatch[resultclass] = {}`, every item of every class in the
reversed mro is written through `__promise__`'s side effect
`cls.__dispatch[klass][funcname] = method` (lines 223-231), so a more
derived definition overwrites a less derived one. -/
def buildClassDispatch (U : ClassUniverse) (rc : String) : List (String × Impl) :=
  ((U.mro rc).reverse).foldl
    (fun d t => (U.dict t).foldl (fun d' kv => updateAssoc d' kv.1 kv.2) d) []

/-- The full dispatch table built by `__prepare_class__` (lines 141-172):
`cls.__dispatch = {}` then, for each `resultclass` in order, the entry for
that class is (re)set and filled by the reversed-mro walk. -/
def buildDispatch (U : ClassUniverse) (rcs : List String) : Dispatch :=
  rcs.foldl (fun disp rc => updateAssoc disp rc (buildClassDispatch U rc)) []

/-- The attribute names `hasattr(cls, k)` finds on the proxy class before
`__prepare_class__`'s `setattr` loop has installed any wrapper: the methods
defined in the body of `__proxy__` itself (with Python's private-name
mangling elided), the comparison methods supplied by `@total_ordering`, and
the attributes inherited from `object` on the Python 2 runtime. -/
def proxyBaseAttrs : List String :=
  ["__init__", "__prepare_class__", "__promise__", "__text_cast",
   "__bytes_cast", "__cast", "__ne__", "__eq__", "__lt__", "__gt__",
   "__le__", "__ge__", "__hash__", "__mod__", "__deepcopy__", "__dispatch",
   "__new__", "__str__", "__repr__", "__getattribute__", "__setattr__",
   "__delattr__", "__reduce__", "__reduce_ex__", "__sizeof__", "__format__",
   "__subclasshook__", "__doc__", "__class__", "__dict__", "__module__"]

/-- The `setattr(cls, k, meth)` side of `__prepare_class__`'s loop
(lines 162-172) on a flattened stream of operation names: a wrapper is
installed for `k` only when `hasattr(cls, k)` is false, i.e. when `k` is
neither a base attribute nor already installed. -/
def installOps (base : List String) : List String → List String → List String
  | acc, [] => acc
  | acc, k :: rest =>
      if base.contains k || acc.contains k then installOps base acc rest
      else installOps base (acc ++ [k]) rest

/-- The operation names visited for one result class, in loop order. -/
def classWalkOps (U : ClassUniverse) (rc : String) : List String :=
  ((U.mro rc).reverse).flatMap (fun t => keysOf (U.dict t))

/-- All wrapper method names `__prepare_class__` installs on the proxy class
via `setattr` (the supported dispatched operations). -/
def buildInstalled (U : ClassUniverse) (base : List String) (rcs : List String) :
    List String :=
  installOps base [] (rcs.flatMap (fun rc => classWalkOps U rc))

/-- The class-level state `__prepare_class__` (lines 137-191) leaves on the
proxy class: the dispatch table, the two delegate flags, and the set of
installed wrapper methods. -/
structure PreparedClass where
  dispatch : Dispatch
  delegateBytes : Bool
  delegateText : Bool
  installed : List String
deriving DecidableEq, Repr

/-- `__prepare_class__` (lines 137-191): build the dispatch table and the
wrapper set, compute `_delegate_bytes` / `_delegate_text` by membership of
`bytes` / `six.text_type` in `resultclasses`, and fail with the assertion
message when both flags hold. -/
def prepareClass (U : ClassUniverse) (rcs : List String) :
    Except String PreparedClass :=
  let dispatch := buildDispatch U rcs
  let installed := buildInstalled U proxyBaseAttrs rcs
  let db := rcs.contains bytesName
  let dt := rcs.contains textTypeName
  if db && dt then .error assertMsg
  else .ok ⟨dispatch, db, dt, installed⟩

/-- A `__proxy__` instance: the captured call arguments (`self.__args`,
`self.__kw`), generic in the argument type so that `allow_lazy` can capture
`Promise` arguments. -/
structure Proxy (α : Type) where
  args : List α
  kw : List (String × α)
deriving DecidableEq, Repr

/-- The factory state produced by `lazy(func, *resultclasses)`: the captured
result classes and the class-level `__dispatch` slot, `none` until the first
proxy construction runs `__prepare_class__`. (`func` lives in the same
closure and is passed explicitly to the operations that call it.) -/
structure Factory where
  resultclasses : List String
  dispatchState : Option PreparedClass

/-- `lazy(func, *resultclasses)` (lines 100-299): returns the factory
closure. No dispatch table is built and no check runs here; the class-level
`__dispatch` slot starts as `None` (line 125). -/
def lazy (rcs : List String) : Factory :=
  ⟨rcs, none⟩

/-- Calling the factory (`__wrapper__`, lines 288-297, then
`__proxy__.__init__`, lines 127-135): captures the arguments, and runs
`__prepare_class__` only when the class-level dispatch slot is still `None`.
The wrapped `func` is never called here; the invocation counter `n` is
threaded through unchanged. -/
def factoryCall {α : Type} (U : ClassUniverse) (F : Factory)
    (args : List α) (kw : List (String × α)) (n : Nat) :
    Except String (Proxy α × Factory) × Nat :=
  match F.dispatchState with
  | some _ => (.ok (⟨args, kw⟩, F), n)
  | none =>
      match prepareClass U F.resultclasses with
      | .error e => (.error e, n)
      | .ok pc => (.ok (⟨args, kw⟩, { F with dispatchState := some pc }), n)

/-- One invocation of the wrapped computation
(`res = func(*self.__args, **self.__kw)`): returns the result and bumps the
invocation counter. -/
def callFunc (f : Func) (p : Proxy PyValue) (n : Nat) : PyValue × Nat :=
  (f p.args p.kw, n + 1)

/-- The loop `for t in type(res).mro(): if t in self.__dispatch: ...`
(lines 210-218): the inner table of the first mro class present in the
dispatch dict. -/
def findDispatchClass (dispatch : Dispatch) : List String → Option (List (String × Impl))
  | [] => none
  | t :: rest =>
      match lookupAssoc dispatch t with
      | some tbl => some tbl
      | none => findDispatchClass dispatch rest

/-- Outcome of one dispatched operation call: the chosen method applied to
the fresh result and the extra call arguments, or the `TypeError` of
line 219, or a `KeyError` when the mro class is present but lacks the
operation name. -/
inductive DispatchOutcome where
  | applied (impl : Impl) (res : PyValue) (extra : List PyValue)
  | typeError (msg : String)
  | keyError (funcname : String)
deriving DecidableEq, Repr

/-- The body of `__promise__.__wrapper__` after the computation has run
(lines 210-219): walk `type(res).mro()` most derived first, and at the first
class present in `__dispatch` return `self.__dispatch[t][funcname](res, ...)`;
raise the `TypeError` when no mro class is present. -/
def dispatchOutcome (U : ClassUniverse) (pc : PreparedClass) (funcname : String)
    (res : PyValue) (extra : List PyValue) : DispatchOutcome :=
  match findDispatchClass pc.dispatch (U.mro res.cls) with
  | some tbl =>
      match lookupAssoc tbl funcname with
      | some impl => .applied impl res extra
      | none => .keyError funcname
  | none => .typeError typeErrMsg

/-- One call of a dispatched operation on a proxy
(`__promise__.__wrapper__`, lines 202-219): invoke `func` afresh — the
result is never cached — then dispatch on the runtime class of the result. -/
def wrapperInvoke (U : ClassUniverse) (f : Func) (pc : PreparedClass)
    (funcname : String) (p : Proxy PyValue) (extra : List PyValue) (n : Nat) :
    DispatchOutcome × Nat :=
  let r := callFunc f p n
  (dispatchOutcome U pc funcname r.1 extra, r.2)

/-- Structural model of Python `==` on result values. -/
def pyEq (a b : PyValue) : Bool :=
  a = b

/-- Structural model of Python `!=` on result values. -/
def pyNe (a b : PyValue) : Bool :=
  a ≠ b

/-- Model of Python `<` on result values, by payload. -/
def pyLt (a b : PyValue) : Bool :=
  a.val < b.val

/-- Model of Python `hash()` on result values, by payload. -/
def pyHash (v : PyValue) : Int :=
  v.val

/-- Model of the `bytes(...)` conversion used by `__bytes_cast` (line 238):
the result is a value of the byte-sequence class with the payload kept. -/
def pyBytes (v : PyValue) : PyValue :=
  ⟨bytesName, v.val⟩

/-- The private `__cast` helper (lines 248-254): delegate to the bytes cast
under `_delegate_bytes`, to the text cast under `_delegate_text`, otherwise
call `func` directly. (`__text_cast`, line 234, is exactly
`func(*self.__args, **self.__kw)`; `__bytes_cast`, line 237, wraps that call
in `bytes(...)`.) The flags and `func` come from the proxy's class and
closure and are passed explicitly. -/
def proxyCast (f : Func) (db dt : Bool) (p : Proxy PyValue) : PyValue :=
  if db then pyBytes (f p.args p.kw)
  else if dt then f p.args p.kw
  else f p.args p.kw

/-- The `other` operand of a comparison method: either a plain value, or a
`Promise` carried with its own closure (`func` and delegate flags), since
`other.__cast()` runs with the other proxy's state. -/
inductive PyOther where
  | raw (v : PyValue)
  | promise (g : Func) (gb gt : Bool) (q : Proxy PyValue)

/-- The `if isinstance(other, Promise): other = other.__cast()` step shared
by `__eq__`, `__ne__` and `__lt__` (lines 256-269): a `Promise` operand is
cast with its own state, a plain operand is used as is. -/
def otherCast : PyOther → PyValue
  | .raw v => v
  | .promise g gb gt q => proxyCast g gb gt q

/-- `__proxy__.__eq__` (lines 261-264): cast a `Promise` operand, then
compare the forced values. Defined directly on the proxy class; the dispatch
table is not consulted. -/
def proxyEq (f : Func) (db dt : Bool) (p : Proxy PyValue) (other : PyOther) : Bool :=
  pyEq (proxyCast f db dt p) (otherCast other)

/-- `__proxy__.__ne__` (lines 256-259). -/
def proxyNe (f : Func) (db dt : Bool) (p : Proxy PyValue) (other : PyOther) : Bool :=
  pyNe (proxyCast f db dt p) (otherCast other)

/-- `__proxy__.__lt__` (lines 266-269). -/
def proxyLt (f : Func) (db dt : Bool) (p : Proxy PyValue) (other : PyOther) : Bool :=
  pyLt (proxyCast f db dt p) (otherCast other)

/-- `__proxy__.__hash__` (lines 271-272): `hash(self.__cast())`. -/
def proxyHash (f : Func) (db dt : Bool) (p : Proxy PyValue) : Int :=
  pyHash (proxyCast f db dt p)

/-- `__proxy__.__deepcopy__` (lines 281-286): record `memo[id(self)] = self`
and return `self` itself. `selfId` is the proxy's object identity, `memo`
the deep-copy memo dict. The invocation counter is threaded like in every
other operation; the body never calls `func`, so it is returned unchanged. -/
def proxyDeepcopy (selfId : Nat) (p : Proxy PyValue)
    (memo : List (Nat × Proxy PyValue)) (n : Nat) :
    Proxy PyValue × List (Nat × Proxy PyValue) × Nat :=
  (p, updateAssoc memo selfId p, n)

/-- An argument to an `allow_lazy`-wrapped function: a plain value or a
`Promise` (`isinstance(arg, Promise)` distinguishes them). -/
inductive ArgVal where
  | plain (v : PyValue)
  | promise (q : Proxy PyValue)
deriving DecidableEq, Repr

/-- The `isinstance(arg, Promise)` test of `allow_lazy` (line 313). -/
def isPromiseArg : ArgVal → Bool
  | .plain _ => false
  | .promise _ => true

/-- The wrapper returned by `allow_lazy(func, *resultclasses)`
(lines 302-321): scan `list(args) + list(six.itervalues(kwargs))`; when no
argument is a `Promise`, call `func` immediately (counter bumped) and return
its value; otherwise return `lazy(func, *resultclasses)(*args, **kwargs)` —
a proxy of a fresh factory, constructed without calling `func`. -/
def allowLazyCall (U : ClassUniverse) (rcs : List String)
    (f : List ArgVal → List (String × ArgVal) → PyValue)
    (args : List ArgVal) (kw : List (String × ArgVal)) (n : Nat) :
    Except String (PyValue ⊕ Proxy ArgVal) × Nat :=
  if (args ++ kw.map Prod.snd).any isPromiseArg then
    match factoryCall U (lazy rcs) args kw n with
    | (.ok pr, n') => (.ok (.inr pr.1), n')
    | (.error e, n') => (.error e, n')
  else
    (.ok (.inl (f args kw)), n + 1)

/-- A small concrete class environment used by the witnesses: an `int`-like
class, the byte and text classes, and a pair `S` deriving from `B` that
both define the operation `op`. -/
def demoU : ClassUniverse where
  mro := fun c =>
    match c with
    | "int" => ["int", "object"]
    | "unicode" => ["unicode", "basestring", "object"]
    | "bytes" => ["bytes", "basestring", "object"]
    | "S" => ["S", "B", "object"]
    | "B" => ["B", "object"]
    | _ => [c]
  dict := fun c =>
    match c with
    | "int" => [("__add__", "int.__add__"), ("__mod__", "int.__mod__"),
                ("__index__", "int.__index__")]
    | "unicode" => [("__add__", "unicode.__add__"), ("__mod__", "unicode.__mod__")]
    | "S" => [("op", "S.op"), ("only_s", "S.only_s")]
    | "B" => [("op", "B.op"), ("only_b", "B.only_b")]
    | "object" => [("__repr__", "object.__repr__"), ("__sizeof__", "object.__sizeof__")]
    | _ => []

/-! ### Lemmas about the dict model -/

section AssocLemmas

variable {κ : Type} {α : Type} [DecidableEq κ]

theorem lookup_updateAssoc (m : List (κ × α)) (k k' : κ) (v : α) :
    lookupAssoc (updateAssoc m k v) k' =
      if k = k' then some v else lookupAssoc m k' := by
  induction m with
  | nil =>
      by_cases h : k = k' <;> simp [updateAssoc, lookupAssoc, h]
  | cons kv rest ih =>
      obtain ⟨k₀, v₀⟩ := kv
      by_cases h₀ : k₀ = k
      · subst h₀
        by_cases h : k₀ = k' <;> simp [updateAssoc, lookupAssoc, h]
      · by_cases h : k₀ = k'
        · subst h
          have : ¬ k = k₀ := fun hk => h₀ hk.symm
          simp [updateAssoc, lookupAssoc, h₀, this]
        · simp [updateAssoc, lookupAssoc, h₀, h, ih]

theorem keysOf_updateAssoc (m : List (κ × α)) (k : κ) (v : α) :
    keysOf (updateAssoc m k v) =
      if k ∈ keysOf m then keysOf m else keysOf m ++ [k] := by
  induction m with
  | nil => simp [updateAssoc, keysOf]
  | cons kv rest ih =>
      obtain ⟨k₀, v₀⟩ := kv
      by_cases h₀ : k₀ = k
      · subst h₀
        simp [updateAssoc, keysOf]
      · have hne : ¬ k = k₀ := fun hk => h₀ hk.symm
        rw [show updateAssoc ((k₀, v₀) :: rest) k v = (k₀, v₀) :: updateAssoc rest k v from by
          simp [updateAssoc, h₀]]
        simp only [keysOf, List.map_cons] at ih ⊢
        rw [ih]
        by_cases hm : k ∈ List.map Prod.fst rest
        · simp [List.mem_cons, hne, hm]
        · simp [List.mem_cons, hne, hm]

theorem nodup_keys_updateAssoc (m : List (κ × α)) (k : κ) (v : α)
    (h : (keysOf m).Nodup) : (keysOf (updateAssoc m k v)).Nodup := by
  rw [keysOf_updateAssoc]
  by_cases hm : k ∈ keysOf m
  · simpa [hm] using h
  · simp only [hm, if_false]
    simpa [List.nodup_append, hm] using h

theorem lookupAssoc_append (m₁ m₂ : List (κ × α)) (k : κ) :
    lookupAssoc (m₁ ++ m₂) k = orO (lookupAssoc m₁ k) (lookupAssoc m₂ k) := by
  induction m₁ with
  | nil => simp [lookupAssoc, orO]
  | cons kv rest ih =>
      by_cases h : kv.1 = k <;> simp [lookupAssoc, h, orO, ih]

theorem lookupAssoc_eq_none_iff (m : List (κ × α)) (k : κ) :
    lookupAssoc m k = none ↔ k ∉ keysOf m := by
  induction m with
  | nil => simp [lookupAssoc, keysOf]
  | cons kv rest ih =>
      by_cases h : kv.1 = k
      · simp [lookupAssoc, keysOf, h]
      · have : ¬ k = kv.1 := fun hk => h hk.symm
        simp [lookupAssoc, keysOf, h, this, ih]

theorem lookupLast_eq_none_iff (m : List (κ × α)) (k : κ) :
    lookupLast m k = none ↔ k ∉ keysOf m := by
  unfold lookupLast
  rw [lookupAssoc_eq_none_iff]
  simp [keysOf]

theorem lookupLast_cons (kv : κ × α) (rest : List (κ × α)) (k : κ) :
    lookupLast (kv :: rest) k =
      orO (lookupLast rest k) (if kv.1 = k then some kv.2 else none) := by
  unfold lookupLast
  rw [List.reverse_cons, lookupAssoc_append]
  have hsing : lookupAssoc [kv] k = (if kv.1 = k then some kv.2 else none) := by
    by_cases h : kv.1 = k <;> simp [lookupAssoc, h]
  rw [hsing]

theorem orO_assoc (a b c : Option α) :
    orO (orO a b) c = orO a (orO b c) := by
  cases a <;> simp [orO]

theorem orO_none_right (a : Option α) : orO a none = a := by
  cases a <;> simp [orO]

/-- Folding the items of one dict into an accumulator dict: the last item
with the queried key wins, and the accumulator answers otherwise. -/
theorem lookup_foldl_items (items : List (κ × α)) (d : List (κ × α)) (k : κ) :
    lookupAssoc (items.foldl (fun d' kv => updateAssoc d' kv.1 kv.2) d) k =
      orO (lookupLast items k) (lookupAssoc d k) := by
  induction items generalizing d with
  | nil => simp [lookupLast, lookupAssoc, orO]
  | cons kv rest ih =>
      rw [List.foldl_cons, ih, lookupLast_cons, orO_assoc]
      congr 1
      rw [lookup_updateAssoc]
      by_cases h : kv.1 = k
      · simp [h, orO]
      · simp [h, orO]

end AssocLemmas

/-! ### The dispatch table resolves operations most-derived-first -/

/-- Specification-level resolution: scan an mro list (most derived first)
and take the entry of the first class whose dict defines the operation. -/
def mroLookup (U : ClassUniverse) : List String → String → Option Impl
  | [], _ => none
  | t :: rest, k => orO (lookupLast (U.dict t) k) (mroLookup U rest k)

theorem lookup_reverse_walk (U : ClassUniverse) (ts : List String)
    (d : List (String × Impl)) (k : String) :
    lookupAssoc
      ((ts.reverse).foldl
        (fun d' t => (U.dict t).foldl (fun d'' kv => updateAssoc d'' kv.1 kv.2) d') d) k =
      orO (mroLookup U ts k) (lookupAssoc d k) := by
  induction ts generalizing d with
  | nil => simp [mroLookup, orO]
  | cons t rest ih =>
      rw [List.reverse_cons, List.foldl_append, List.foldl_cons, List.foldl_nil,
        lookup_foldl_items, ih, mroLookup, orO_assoc]

/-- The inner dispatch table built for a result class answers exactly the
most-derived-first resolution over that class's mro. -/
theorem lookup_buildClassDispatch (U : ClassUniverse) (rc : String) (k : String) :
    lookupAssoc (buildClassDispatch U rc) k = mroLookup U (U.mro rc) k := by
  unfold buildClassDispatch
  rw [lookup_reverse_walk]
  simp [lookupAssoc, orO_none_right]

theorem mroLookup_eq_none_iff (U : ClassUniverse) (ts : List String) (k : String) :
    mroLookup U ts k = none ↔ ∀ t ∈ ts, k ∉ keysOf (U.dict t) := by
  induction ts with
  | nil => simp [mroLookup]
  | cons t rest ih =>
      unfold mroLookup
      constructor
      · intro h
        cases hd : lookupLast (U.dict t) k with
        | some v => rw [hd] at h; simp [orO] at h
        | none =>
            rw [hd] at h
            simp only [orO] at h
            intro t' ht'
            rcases List.mem_cons.mp ht' with h' | h'
            · subst h'
              exact (lookupLast_eq_none_iff _ _).mp hd
            · exact (ih.mp h) t' h'
      · intro h
        have hd : lookupLast (U.dict t) k = none :=
          (lookupLast_eq_none_iff _ _).mpr (h t (List.mem_cons_self t rest))
        rw [hd]
        simp only [orO]
        exact ih.mpr (fun t' ht' => h t' (List.mem_cons_of_mem t ht'))

/-- Key membership in the inner dispatch table: exactly the operations
defined on the result class or one of its mro ancestors. -/
theorem mem_keys_buildClassDispatch (U : ClassUniverse) (rc : String) (k : String) :
    k ∈ keysOf (buildClassDispatch U rc) ↔
      ∃ t ∈ U.mro rc, k ∈ keysOf (U.dict t) := by
  constructor
  · intro h
    by_contra hc
    push_neg at hc
    have : mroLookup U (U.mro rc) k = none := (mroLookup_eq_none_iff U _ k).mpr hc
    rw [← lookup_buildClassDispatch] at this
    exact (lookupAssoc_eq_none_iff _ _).mp this h
  · intro ⟨t, ht, hk⟩
    by_contra hc
    have : lookupAssoc (buildClassDispatch U rc) k = none := by
      cases hl : lookupAssoc (buildClassDispatch U rc) k with
      | none => rfl
      | some v =>
          exfalso
          apply hc
          by_contra hm
          rw [(lookupAssoc_eq_none_iff _ _).mpr hm] at hl
          exact Option.noConfusion hl
    rw [lookup_buildClassDispatch] at this
    exact (mroLookup_eq_none_iff U _ k).mp this t ht hk

theorem nodup_keys_buildClassDispatch (U : ClassUniverse) (rc : String) :
    (keysOf (buildClassDispatch U rc)).Nodup := by
  unfold buildClassDispatch
  generalize (U.mro rc).reverse = ts
  have base : (keysOf ([] : List (String × Impl))).Nodup := by simp [keysOf]
  revert base
  generalize ([] : List (String × Impl)) = d
  induction ts generalizing d with
  | nil => intro h; simpa using h
  | cons t rest ih =>
      intro hd
      rw [List.foldl_cons]
      apply ih
      generalize (U.dict t) = items
      induction items generalizing d with
      | nil => simpa using hd
      | cons kv rest' ih' =>
          rw [List.foldl_cons]
          exact ih' _ (nodup_keys_updateAssoc _ _ _ hd)

/-- The outer dispatch table: one entry per declared result class, holding
that class's inner table. -/
theorem lookup_buildDispatch (U : ClassUniverse) (rcs : List String) (k : String) :
    lookupAssoc (buildDispatch U rcs) k =
      if k ∈ rcs then some (buildClassDispatch U k) else none := by
  unfold buildDispatch
  have main : ∀ (d : Dispatch),
      lookupAssoc (rcs.foldl (fun disp rc => updateAssoc disp rc (buildClassDispatch U rc)) d) k =
        if k ∈ rcs then some (buildClassDispatch U k) else lookupAssoc d k := by
    induction rcs with
    | nil => intro d; simp
    | cons rc rest ih =>
        intro d
        rw [List.foldl_cons, ih]
        by_cases hr : k ∈ rest
        · simp [hr]
        · by_cases he : rc = k
          · subst he
            simp [hr, lookup_updateAssoc]
          · have : ¬ k = rc := fun h => he h.symm
            simp [hr, this, lookup_updateAssoc, he]
  rw [main]
  simp [lookupAssoc]

/-! ### Helper lemmas about class preparation and dispatch -/

theorem prepareClass_ok (U : ClassUniverse) (rcs : List String) (pc : PreparedClass)
    (h : prepareClass U rcs = .ok pc) :
    pc = ⟨buildDispatch U rcs, rcs.contains bytesName, rcs.contains textTypeName,
          buildInstalled U proxyBaseAttrs rcs⟩ := by
  simp only [prepareClass] at h
  split at h
  · cases h
  · cases h
    rfl

theorem prepareClass_error_msg (U : ClassUniverse) (rcs : List String) (e : String)
    (h : prepareClass U rcs = .error e) : e = assertMsg := by
  simp only [prepareClass] at h
  split at h
  · cases h
    rfl
  · cases h

theorem findDispatchClass_eq_none_iff (dispatch : Dispatch) (ts : List String) :
    findDispatchClass dispatch ts = none ↔
      ∀ t ∈ ts, lookupAssoc dispatch t = none := by
  induction ts with
  | nil => simp [findDispatchClass]
  | cons t rest ih =>
      unfold findDispatchClass
      cases h : lookupAssoc dispatch t with
      | some tbl =>
          simp only []
          constructor
          · intro hw; cases hw
          · intro hall
            rw [hall t (List.mem_cons_self t rest)] at h
            cases h
      | none =>
          simp only []
          rw [ih]
          constructor
          · intro hall t' ht'
            rcases List.mem_cons.mp ht' with h' | h'
            · subst h'; exact h
            · exact hall t' h'
          · intro hall t' ht'
            exact hall t' (List.mem_cons_of_mem t ht')

theorem lookup_buildDispatch_eq_none_iff (U : ClassUniverse) (rcs : List String)
    (t : String) :
    lookupAssoc (buildDispatch U rcs) t = none ↔ t ∉ rcs := by
  rw [lookup_buildDispatch]
  by_cases h : t ∈ rcs <;> simp [h]

/-- The dispatched wrapper raises the `TypeError` exactly when no class in
the runtime mro of the freshly computed result is a declared result class. -/
theorem wrapper_typeError_iff (U : ClassUniverse) (rcs : List String)
    (pc : PreparedClass) (f : Func) (fn : String) (p : Proxy PyValue)
    (extra : List PyValue) (n : Nat)
    (hpc : prepareClass U rcs = .ok pc) :
    (wrapperInvoke U f pc fn p extra n).1 = .typeError typeErrMsg ↔
      ∀ t ∈ U.mro (f p.args p.kw).cls, t ∉ rcs := by
  have hd : pc.dispatch = buildDispatch U rcs := by
    rw [prepareClass_ok U rcs pc hpc]
  have key : (wrapperInvoke U f pc fn p extra n).1 = .typeError typeErrMsg ↔
      findDispatchClass pc.dispatch (U.mro (f p.args p.kw).cls) = none := by
    show dispatchOutcome U pc fn (f p.args p.kw) extra = _ ↔ _
    unfold dispatchOutcome
    cases hf : findDispatchClass pc.dispatch (U.mro (f p.args p.kw).cls) with
    | some tbl => cases hl : lookupAssoc tbl fn <;> simp [hl]
    | none => simp
  rw [key, findDispatchClass_eq_none_iff]
  constructor
  · intro hall t ht
    have h2 := hall t ht
    rwa [hd, lookup_buildDispatch_eq_none_iff] at h2
  · intro hall t ht
    rw [hd, lookup_buildDispatch_eq_none_iff]
    exact hall t ht

/-- An operation name the proxy class already has as an attribute is never
installed as a dispatch wrapper (the `hasattr` guard, lines 163-172). -/
theorem not_mem_installOps (base : List String) (ks : List String)
    (acc : List String) (k : String) (hk : k ∈ base) (hacc : k ∉ acc) :
    k ∉ installOps base acc ks := by
  induction ks generalizing acc with
  | nil => simpa [installOps] using hacc
  | cons k' rest ih =>
      unfold installOps
      cases hb : (base.contains k' || acc.contains k') with
      | true =>
          simp only [if_pos rfl]
          exact ih acc hacc
      | false =>
          rw [if_neg (by simp [hb])]
          apply ih
          intro hmem
          rcases List.mem_append.mp hmem with h1 | h1
          · exact hacc h1
          · have hk' : k = k' := by simpa using h1
            subst hk'
            have hcon : base.contains k = false := (Bool.or_eq_false_iff.mp hb).1
            have : k ∉ base := by simpa using hcon
            exact this hk

theorem not_mem_buildInstalled (U : ClassUniverse) (base rcs : List String)
    (k : String) (hk : k ∈ base) :
    k ∉ buildInstalled U base rcs := by
  unfold buildInstalled
  exact not_mem_installOps base _ [] k hk (by simp)

/-! ### Shared concrete data for the witnesses -/

/-- A deterministic computation returning an `int`-class value. -/
def demoProxy : Proxy PyValue := ⟨[⟨"int", 3⟩], []⟩

/-- A concrete prepared-class record with dispatch already built for
`["int"]` over `demoU` (the state a factory holds after its first proxy). -/
def demoPCInt : PreparedClass :=
  ⟨buildDispatch demoU ["int"], false, false, buildInstalled demoU proxyBaseAttrs ["int"]⟩

/-- The prepared-class record for the declared result shape `S` over `demoU`. -/
def demoPCS : PreparedClass :=
  ⟨buildDispatch demoU ["S"], false, false, buildInstalled demoU proxyBaseAttrs ["S"]⟩

/-! ### The claims -/

/-- C1: calling a `lazy` factory constructs and returns a Proxy without
invoking `func` — for the very first call of a fresh factory, the one that
runs `__prepare_class__`, and for every later call alike the invocation
counter is unchanged by `factoryCall` — and each call of a dispatched
operation on a proxy invokes `func` exactly once, with no memoization: a
second call on the same proxy invokes it again (counter `n + 2` after two
calls). -/
theorem claim_C1 (U : ClassUniverse) (rcs : List String) (pc : PreparedClass)
    (f : Func) (fn : String) (p : Proxy PyValue) (extra : List PyValue)
    (args args' : List PyValue) (kw kw' : List (String × PyValue))
    (n m n' : Nat)
    (hpc : prepareClass U rcs = .ok pc) :
    factoryCall U (lazy rcs) args kw n = (.ok (⟨args, kw⟩, ⟨rcs, some pc⟩), n)
    ∧ factoryCall (α := PyValue) U ⟨rcs, some pc⟩ args' kw' m =
        (.ok (⟨args', kw'⟩, ⟨rcs, some pc⟩), m)
    ∧ (wrapperInvoke U f pc fn p extra n').2 = n' + 1
    ∧ (wrapperInvoke U f pc fn p extra
        ((wrapperInvoke U f pc fn p extra n').2)).2 = n' + 2 := by
  refine ⟨?_, rfl, rfl, rfl⟩
  show (match prepareClass U rcs with
    | .error e => ((.error e : Except String (Proxy PyValue × Factory)), n)
    | .ok pc' => (.ok (⟨args, kw⟩, { lazy rcs with dispatchState := some pc' }), n)) = _
  rw [hpc]
  rfl

theorem claim_C1_witness :
    factoryCall demoU (lazy ["int"]) [(⟨"int", 3⟩ : PyValue)] [] 0 =
        (.ok (⟨[⟨"int", 3⟩], []⟩, ⟨["int"], some demoPCInt⟩), 0)
    ∧ factoryCall (α := PyValue) demoU ⟨["int"], some demoPCInt⟩ [⟨"int", 4⟩] [] 0 =
        (.ok (⟨[⟨"int", 4⟩], []⟩, ⟨["int"], some demoPCInt⟩), 0)
    ∧ (wrapperInvoke demoU (fun _ _ => ⟨"int", 7⟩) demoPCInt "__add__"
        demoProxy [] 0).2 = 0 + 1 :=
  have h := claim_C1 demoU ["int"] demoPCInt
    (fun _ _ => ⟨"int", 7⟩) "__add__" demoProxy [] [⟨"int", 3⟩] [⟨"int", 4⟩]
    [] [] 0 0 0 rfl
  ⟨h.1, h.2.1, h.2.2.1⟩

/-- C2: most-derived-wins override. If class `S` heads its own mro and its
own `__dict__` defines `op` (with implementation `vS`), then the inner
dispatch table built for declared result shape `S` maps `op` to `vS` — the
reversed-mro walk lets `S`'s definition overwrite any base-class definition
of `op` — and a dispatched call of `op` on a proxy whose computation
actually returns an `S` applies `vS`, never a base-class implementation. -/
theorem claim_C2 (U : ClassUniverse) (S : String) (rest rcs : List String)
    (op : String) (vS : Impl) (pc : PreparedClass)
    (f : Func) (p : Proxy PyValue) (extra : List PyValue) (n : Nat)
    (hmro : U.mro S = S :: rest)
    (hdef : lookupLast (U.dict S) op = some vS)
    (hrcs : S ∈ rcs)
    (hpc : prepareClass U rcs = .ok pc)
    (hres : (f p.args p.kw).cls = S) :
    lookupAssoc (buildClassDispatch U S) op = some vS
    ∧ (wrapperInvoke U f pc op p extra n).1 = .applied vS (f p.args p.kw) extra := by
  have htbl : lookupAssoc (buildClassDispatch U S) op = some vS := by
    rw [lookup_buildClassDispatch, hmro]
    unfold mroLookup
    rw [hdef]
    rfl
  refine ⟨htbl, ?_⟩
  have hd : pc.dispatch = buildDispatch U rcs := by
    rw [prepareClass_ok U rcs pc hpc]
  show dispatchOutcome U pc op (f p.args p.kw) extra = _
  unfold dispatchOutcome
  have hfind : findDispatchClass pc.dispatch (U.mro (f p.args p.kw).cls) =
      some (buildClassDispatch U S) := by
    rw [hres, hmro]
    unfold findDispatchClass
    rw [hd, lookup_buildDispatch]
    simp [hrcs]
  simp [hfind, htbl]

theorem claim_C2_witness :
    lookupAssoc (buildClassDispatch demoU "S") "op" = some "S.op"
    ∧ (wrapperInvoke demoU (fun _ _ => ⟨"S", 0⟩) demoPCS "op"
        demoProxy [] 0).1 = .applied "S.op" ⟨"S", 0⟩ [] :=
  claim_C2 demoU "S" ["B", "object"] ["S"] "op" "S.op" demoPCS
    (fun _ _ => ⟨"S", 0⟩) demoProxy [] 0 rfl rfl (by simp) rfl rfl

/-- C3 counterexample: with both the byte-sequence class and the text class
declared, the factory construction `lazy(f, bytes, text)` itself completes
normally — it returns a factory whose dispatch slot is still unbuilt, with
no error raised — and the configuration error only surfaces later, when the
first proxy construction runs `__prepare_class__`. This refutes the claim
that the failure happens at factory-construction time. -/
theorem claim_C3_counterexample :
    lazy [bytesName, textTypeName] = Factory.mk [bytesName, textTypeName] none
    ∧ (factoryCall (α := PyValue) demoU (lazy [bytesName, textTypeName])
        [] [] 0).1 = .error assertMsg :=
  ⟨rfl, rfl⟩

/-- C3 (amended): declaring both a byte-sequence shape and a text shape in
the same `lazy(f, shapes...)` call is a configuration error that fails fast
at the first proxy construction — the factory itself is created without any
check, and the assertion fires inside `__proxy__.__init__` before any proxy
is ever produced. -/
theorem claim_C3 (U : ClassUniverse) (rcs : List String) (args : List PyValue)
    (kw : List (String × PyValue)) (n : Nat)
    (hb : bytesName ∈ rcs) (ht : textTypeName ∈ rcs) :
    lazy rcs = Factory.mk rcs none
    ∧ factoryCall U (lazy rcs) args kw n = (.error assertMsg, n) := by
  refine ⟨rfl, ?_⟩
  show (match prepareClass U rcs with
    | .error e => ((.error e : Except String (Proxy PyValue × Factory)), n)
    | .ok pc => (.ok (⟨args, kw⟩, { lazy rcs with dispatchState := some pc }), n)) = _
  have hpc : prepareClass U rcs = .error assertMsg := by
    simp only [prepareClass]
    rw [if_pos]
    simp [hb, ht]
  rw [hpc]

theorem claim_C3_witness :
    factoryCall demoU (lazy [bytesName, textTypeName])
        ([] : List PyValue) [] 0 = (.error assertMsg, 0) :=
  (claim_C3 demoU [bytesName, textTypeName] [] [] 0 (by simp) (by simp)).2

/-- C4: a dispatched operation on a proxy raises the `TypeError`
type-contract violation exactly when no class in the mro of the computation's
actual result is among the declared result classes — and this failure can
only arise when an operation is invoked: constructing a proxy can fail only
with the byte/text configuration assertion, never with the `TypeError`. -/
theorem claim_C4 (U : ClassUniverse) (rcs : List String) (pc : PreparedClass)
    (f : Func) (fn : String) (p : Proxy PyValue) (extra : List PyValue)
    (F : Factory) (args : List PyValue) (kw : List (String × PyValue)) (n : Nat)
    (hpc : prepareClass U rcs = .ok pc) :
    ((wrapperInvoke U f pc fn p extra n).1 = .typeError typeErrMsg ↔
      ∀ t ∈ U.mro (f p.args p.kw).cls, t ∉ rcs)
    ∧ (∀ e, (factoryCall (α := PyValue) U F args kw n).1 = .error e →
        e = assertMsg) := by
  refine ⟨wrapper_typeError_iff U rcs pc f fn p extra n hpc, ?_⟩
  intro e he
  unfold factoryCall at he
  cases hF : F.dispatchState with
  | some pc' => rw [hF] at he; cases he
  | none =>
      rw [hF] at he
      cases hprep : prepareClass U F.resultclasses with
      | error e' =>
          rw [hprep] at he
          cases he
          exact prepareClass_error_msg U F.resultclasses e hprep
      | ok pc' => rw [hprep] at he; cases he

theorem claim_C4_witness :
    ((wrapperInvoke demoU (fun _ _ => ⟨"unicode", 5⟩) demoPCInt "__add__"
        demoProxy [] 0).1 = .typeError typeErrMsg ↔
      ∀ t ∈ demoU.mro (⟨"unicode", 5⟩ : PyValue).cls, t ∉ ["int"])
    ∧ (∀ e, (factoryCall (α := PyValue) demoU (lazy ["int"]) [] [] 0).1 =
        .error e → e = assertMsg) :=
  claim_C4 demoU ["int"] demoPCInt (fun _ _ => ⟨"unicode", 5⟩) "__add__"
    demoProxy [] (lazy ["int"]) [] [] 0 rfl

/-- C5: the dispatch table does not exist when the factory is created; it
is built by the first proxy construction, and every later proxy construction
returns the factory state unchanged, sharing the same table. After
construction the table holds, for each declared result class, exactly one
inner entry per operation defined on that class or any of its mro ancestors:
the inner key list is duplicate-free, an operation name occurs exactly once
among the keys when some mro class defines it, and not at all otherwise. -/
theorem claim_C5 (U : ClassUniverse) (rcs : List String) (pc : PreparedClass)
    (args args' : List PyValue) (kw kw' : List (String × PyValue))
    (n n' : Nat) (rc op : String)
    (hpc : prepareClass U rcs = .ok pc)
    (hrc : rc ∈ rcs) :
    (lazy rcs).dispatchState = none
    ∧ factoryCall U (lazy rcs) args kw n = (.ok (⟨args, kw⟩, ⟨rcs, some pc⟩), n)
    ∧ factoryCall (α := PyValue) U ⟨rcs, some pc⟩ args' kw' n' =
        (.ok (⟨args', kw'⟩, ⟨rcs, some pc⟩), n')
    ∧ lookupAssoc pc.dispatch rc = some (buildClassDispatch U rc)
    ∧ (keysOf (buildClassDispatch U rc)).Nodup
    ∧ ((keysOf (buildClassDispatch U rc)).count op =
        if ∃ t ∈ U.mro rc, op ∈ keysOf (U.dict t) then 1 else 0) := by
  have hd : pc.dispatch = buildDispatch U rcs := by
    rw [prepareClass_ok U rcs pc hpc]
  refine ⟨rfl, ?_, rfl, ?_, nodup_keys_buildClassDispatch U rc, ?_⟩
  · show (match prepareClass U rcs with
      | .error e => ((.error e : Except String (Proxy PyValue × Factory)), n)
      | .ok pc' => (.ok (⟨args, kw⟩, { lazy rcs with dispatchState := some pc' }), n)) = _
    rw [hpc]
    rfl
  · rw [hd, lookup_buildDispatch]
    simp [hrc]
  · by_cases hdef : ∃ t ∈ U.mro rc, op ∈ keysOf (U.dict t)
    · rw [if_pos hdef]
      exact List.count_eq_one_of_mem (nodup_keys_buildClassDispatch U rc)
        ((mem_keys_buildClassDispatch U rc op).mpr hdef)
    · rw [if_neg hdef]
      rw [List.count_eq_zero]
      intro hmem
      exact hdef ((mem_keys_buildClassDispatch U rc op).mp hmem)

theorem claim_C5_witness :
    (lazy ["int"]).dispatchState = none
    ∧ lookupAssoc demoPCInt.dispatch "int" =
        some (buildClassDispatch demoU "int")
    ∧ ((keysOf (buildClassDispatch demoU "int")).count "__add__" =
        if ∃ t ∈ demoU.mro "int", "__add__" ∈ keysOf (demoU.dict t)
        then 1 else 0) :=
  have h := claim_C5 demoU ["int"] demoPCInt [] [] [] [] 0 0 "int" "__add__"
    rfl (by simp)
  ⟨h.1, h.2.2.2.1, h.2.2.2.2.2⟩

/-- C6: equality consistency. When the two proxies' computations force to
equal values, `p1 == p2` holds and so does the symmetric comparison; and
comparing a proxy against a raw value gives exactly the comparison of the
proxy's forced value with that value. -/
theorem claim_C6 (f g : Func) (db dt gb gt : Bool) (p1 p2 : Proxy PyValue)
    (v : PyValue)
    (h : proxyCast f db dt p1 = proxyCast g gb gt p2) :
    proxyEq f db dt p1 (.promise g gb gt p2) = true
    ∧ proxyEq g gb gt p2 (.promise f db dt p1) = true
    ∧ proxyEq f db dt p1 (.raw v) = pyEq (proxyCast f db dt p1) v := by
  refine ⟨?_, ?_, rfl⟩ <;> simp [proxyEq, otherCast, pyEq, h]

theorem claim_C6_witness :
    proxyEq (fun _ _ => ⟨"int", 7⟩) false false demoProxy
        (.promise (fun _ _ => ⟨"int", 7⟩) false false ⟨[], []⟩) = true
    ∧ proxyEq (fun _ _ => ⟨"int", 7⟩) false false demoProxy (.raw ⟨"int", 7⟩) =
        pyEq (proxyCast (fun _ _ => ⟨"int", 7⟩) false false demoProxy) ⟨"int", 7⟩ :=
  have h := claim_C6 (fun _ _ => ⟨"int", 7⟩) (fun _ _ => ⟨"int", 7⟩)
    false false false false demoProxy ⟨[], []⟩ ⟨"int", 7⟩ rfl
  ⟨h.1, h.2.2⟩

/-- C7: deep-copy is special-cased to hand back the proxy object itself —
the value returned by `__deepcopy__` is the very proxy it was called on,
not a copy of the eventual result of the computation. -/
theorem claim_C7 (selfId : Nat) (p : Proxy PyValue)
    (memo : List (Nat × Proxy PyValue)) (n : Nat) :
    (proxyDeepcopy selfId p memo n).1 = p :=
  rfl

/-- C8: the `allow_lazy` wrapper routes on whether any positional or keyword
argument is a `Promise`: with none, the wrapped function runs immediately
(counter bumped) and its plain value is returned with no proxy; with at
least one, the function is not run (counter unchanged) and a fresh proxy
capturing the same arguments is returned. -/
theorem claim_C8 (U : ClassUniverse) (rcs : List String) (pc : PreparedClass)
    (f : List ArgVal → List (String × ArgVal) → PyValue)
    (args : List ArgVal) (kw : List (String × ArgVal)) (n : Nat)
    (hpc : prepareClass U rcs = .ok pc) :
    ((args ++ kw.map Prod.snd).any isPromiseArg = false →
      allowLazyCall U rcs f args kw n = (.ok (.inl (f args kw)), n + 1))
    ∧ ((args ++ kw.map Prod.snd).any isPromiseArg = true →
      allowLazyCall U rcs f args kw n = (.ok (.inr ⟨args, kw⟩), n)) := by
  constructor
  · intro hno
    unfold allowLazyCall
    rw [hno]
    rfl
  · intro hyes
    unfold allowLazyCall
    rw [hyes]
    simp only [if_pos rfl]
    have hfc : factoryCall U (lazy rcs) args kw n =
        (.ok (⟨args, kw⟩, ⟨rcs, some pc⟩), n) := by
      show (match prepareClass U rcs with
        | .error e => ((.error e : Except String (Proxy ArgVal × Factory)), n)
        | .ok pc' => (.ok (⟨args, kw⟩, { lazy rcs with dispatchState := some pc' }), n)) = _
      rw [hpc]
      rfl
    rw [hfc]
    rfl

theorem claim_C8_witness :
    allowLazyCall demoU ["int"] (fun _ _ => ⟨"int", 6⟩)
        [.plain ⟨"int", 2⟩, .plain ⟨"int", 3⟩] [] 0 =
        (.ok (.inl ⟨"int", 6⟩), 0 + 1)
    ∧ allowLazyCall demoU ["int"] (fun _ _ => ⟨"int", 6⟩)
        [.promise ⟨[], []⟩, .plain ⟨"int", 3⟩] [] 0 =
        (.ok (.inr ⟨[.promise ⟨[], []⟩, .plain ⟨"int", 3⟩], []⟩), 0) :=
  ⟨(claim_C8 demoU ["int"] demoPCInt (fun _ _ => ⟨"int", 6⟩)
      [.plain ⟨"int", 2⟩, .plain ⟨"int", 3⟩] [] 0 rfl).1 rfl,
   (claim_C8 demoU ["int"] demoPCInt (fun _ _ => ⟨"int", 6⟩)
      [.promise ⟨[], []⟩, .plain ⟨"int", 3⟩] [] 0 rfl).2 rfl⟩

/-- C9: the comparison and hashing operations are defined directly on the
proxy class — the `hasattr` guard keeps `__prepare_class__` from installing
dispatch wrappers over them — and they force the computation through the
`__cast` helper and operate on the raw forced value, so they succeed (no
`TypeError`) even when the runtime class of the result has no mro class
among the declared result classes, a situation in which a dispatched
operation raises the type-contract violation. -/
theorem claim_C9 (U : ClassUniverse) (rcs : List String) (pc : PreparedClass)
    (f : Func) (db dt : Bool) (p : Proxy PyValue) (other : PyOther)
    (fn : String) (extra : List PyValue) (n : Nat)
    (hpc : prepareClass U rcs = .ok pc)
    (hmiss : ∀ t ∈ U.mro (f p.args p.kw).cls, t ∉ rcs) :
    ("__eq__" ∈ proxyBaseAttrs ∧ "__eq__" ∉ buildInstalled U proxyBaseAttrs rcs)
    ∧ ("__ne__" ∈ proxyBaseAttrs ∧ "__ne__" ∉ buildInstalled U proxyBaseAttrs rcs)
    ∧ ("__lt__" ∈ proxyBaseAttrs ∧ "__lt__" ∉ buildInstalled U proxyBaseAttrs rcs)
    ∧ ("__hash__" ∈ proxyBaseAttrs ∧ "__hash__" ∉ buildInstalled U proxyBaseAttrs rcs)
    ∧ (wrapperInvoke U f pc fn p extra n).1 = .typeError typeErrMsg
    ∧ proxyEq f db dt p other = pyEq (proxyCast f db dt p) (otherCast other)
    ∧ proxyNe f db dt p other = pyNe (proxyCast f db dt p) (otherCast other)
    ∧ proxyLt f db dt p other = pyLt (proxyCast f db dt p) (otherCast other)
    ∧ proxyHash f db dt p = pyHash (proxyCast f db dt p) := by
  refine ⟨⟨by simp [proxyBaseAttrs], not_mem_buildInstalled U _ rcs _ (by simp [proxyBaseAttrs])⟩,
    ⟨by simp [proxyBaseAttrs], not_mem_buildInstalled U _ rcs _ (by simp [proxyBaseAttrs])⟩,
    ⟨by simp [proxyBaseAttrs], not_mem_buildInstalled U _ rcs _ (by simp [proxyBaseAttrs])⟩,
    ⟨by simp [proxyBaseAttrs], not_mem_buildInstalled U _ rcs _ (by simp [proxyBaseAttrs])⟩,
    ?_, rfl, rfl, rfl, rfl⟩
  exact (wrapper_typeError_iff U rcs pc f fn p extra n hpc).mpr hmiss

theorem claim_C9_witness :
    ("__eq__" ∉ buildInstalled demoU proxyBaseAttrs ["int"])
    ∧ (wrapperInvoke demoU (fun _ _ => ⟨"unicode", 4⟩) demoPCInt "__add__"
        demoProxy [] 0).1 = .typeError typeErrMsg
    ∧ proxyEq (fun _ _ => ⟨"unicode", 4⟩) false false demoProxy (.raw ⟨"unicode", 4⟩) =
        pyEq (proxyCast (fun _ _ => ⟨"unicode", 4⟩) false false demoProxy) ⟨"unicode", 4⟩ :=
  have h := claim_C9 demoU ["int"] demoPCInt (fun _ _ => ⟨"unicode", 4⟩)
    false false demoProxy (.raw ⟨"unicode", 4⟩) "__add__" [] 0 rfl (by decide)
  ⟨h.1.2, h.2.2.2.2.1, h.2.2.2.2.2.1⟩

/-- C10: deep-copying a proxy performs no invocation of the wrapped
computation — the counter comes back unchanged, in contrast to a dispatched
operation, which always bumps it — and it records `id(self) -> self` in the
deep-copy memo, so a repeated occurrence of the proxy inside a structure
being copied resolves to the identical object. -/
theorem claim_C10 (selfId : Nat) (p : Proxy PyValue)
    (memo : List (Nat × Proxy PyValue)) (n : Nat)
    (U : ClassUniverse) (f : Func) (pc : PreparedClass) (fn : String)
    (extra : List PyValue) :
    (proxyDeepcopy selfId p memo n).2.2 = n
    ∧ lookupAssoc (proxyDeepcopy selfId p memo n).2.1 selfId = some p
    ∧ (wrapperInvoke U f pc fn p extra n).2 = n + 1 := by
  refine ⟨rfl, ?_, rfl⟩
  show lookupAssoc (updateAssoc memo selfId p) selfId = some p
  rw [lookup_updateAssoc]
  simp

end DjangoFunctional
